import Mathlib

/-!
Verification of the prefill-URL builder in `main.go` of
`yo-kondo/input_google_forms_answer`.

The program's core is `buildPrefillURL` (main.go lines 97-176), which leans on
Go's `net/url` standard library.  We embed Go strings as lists of bytes
(`List Nat`, each element intended to be `< 256`) and translate, at that byte
level, the fragment of `net/url` the program exercises: `url.Parse`,
`URL.Query` / `ParseQuery`, `url.Values` (Get/Set/Del/Add/Encode),
`url.QueryUnescape`, `URL.String`, together with the escaping machinery
(`shouldEscape`, `escape`, `unescape`).  `time.Now().Format("2006-01-02")`
is modelled by an injected `Date` rendered by `formatDate`.
-/

/-- A Go string, viewed as its byte sequence. -/
abbrev GoString := List Nat

/-- Embed an ASCII Lean string literal as a byte string (all literals used in
this development are ASCII, where code points and UTF-8 bytes agree). -/
def str (s : String) : GoString := s.data.map Char.toNat

/-- Every byte of the string is an actual byte value. -/
def ByteStr (s : GoString) : Prop := ∀ b ∈ s, b < 256

instance : DecidablePred ByteStr := fun s =>
  inferInstanceAs (Decidable (∀ b ∈ s, b < 256))

/-- The encoding modes of net/url (`encodePath`, `encodePathSegment`,
`encodeHost`, `encodeZone`, `encodeUserPassword`, `encodeQueryComponent`,
`encodeFragment`). -/
inductive Encoding where
  | path
  | pathSegment
  | host
  | zone
  | userPassword
  | queryComponent
  | fragment
deriving DecidableEq, Repr

/-- net/url `ishex`. -/
def ishex (c : Nat) : Bool :=
  if 48 ≤ c ∧ c ≤ 57 then true        -- '0'-'9'
  else if 97 ≤ c ∧ c ≤ 102 then true  -- 'a'-'f'
  else if 65 ≤ c ∧ c ≤ 70 then true   -- 'A'-'F'
  else false

/-- net/url `unhex`. -/
def unhex (c : Nat) : Nat :=
  if 48 ≤ c ∧ c ≤ 57 then c - 48
  else if 97 ≤ c ∧ c ≤ 102 then c - 97 + 10
  else if 65 ≤ c ∧ c ≤ 70 then c - 65 + 10
  else 0

/-- Digit of `upperhex = "0123456789ABCDEF"`. -/
def hexUpper (n : Nat) : Nat := if n < 10 then 48 + n else 55 + n

/-- net/url `shouldEscape(c, mode)` (bytes named by their ASCII codes). -/
def shouldEscape (c : Nat) (mode : Encoding) : Bool :=
  -- alphanumerics are never escaped
  if (97 ≤ c ∧ c ≤ 122) ∨ (65 ≤ c ∧ c ≤ 90) ∨ (48 ≤ c ∧ c ≤ 57) then false
  -- host/zone: extra set of legal characters  ! $ & ' ( ) * + , ; = : [ ] < > "
  else if (mode = .host ∨ mode = .zone) ∧
      (c = 33 ∨ c = 36 ∨ c = 38 ∨ c = 39 ∨ c = 40 ∨ c = 41 ∨ c = 42 ∨
       c = 43 ∨ c = 44 ∨ c = 59 ∨ c = 61 ∨ c = 58 ∨ c = 91 ∨ c = 93 ∨
       c = 60 ∨ c = 62 ∨ c = 34) then false
  -- unreserved marks  - _ . ~
  else if c = 45 ∨ c = 95 ∨ c = 46 ∨ c = 126 then false
  -- reserved  $ & + , / : ; = ? @  : mode-dependent
  else if c = 36 ∨ c = 38 ∨ c = 43 ∨ c = 44 ∨ c = 47 ∨ c = 58 ∨ c = 59 ∨
          c = 61 ∨ c = 63 ∨ c = 64 then
    match mode with
    | .path => c = 63
    | .pathSegment => c = 47 ∨ c = 59 ∨ c = 44 ∨ c = 63
    | .userPassword => c = 64 ∨ c = 47 ∨ c = 63 ∨ c = 58
    | .queryComponent => true
    | .fragment => false
    | .host => true
    | .zone => true
  -- fragment: additionally  ! ( ) *  are legal
  else if mode = .fragment ∧ (c = 33 ∨ c = 40 ∨ c = 41 ∨ c = 42) then false
  else true

/-- One byte of net/url `escape`'s output loop: space becomes `+` in query
components, escaped bytes become `%XX`, the rest pass through. -/
def escapeByte (mode : Encoding) (c : Nat) : GoString :=
  if c = 32 ∧ mode = .queryComponent then [43]
  else if shouldEscape c mode then [37, hexUpper (c / 16), hexUpper (c % 16)]
  else [c]

/-- net/url `escape(s, mode)`. -/
def escape : GoString → Encoding → GoString
  | [], _ => []
  | c :: rest, mode => escapeByte mode c ++ escape rest mode

/-- net/url `unescape(s, mode)`; `none` is Go's error return.  Go validates in
a first pass and decodes in a second; a single failing pass is equivalent. -/
def unescapeGo : GoString → Encoding → Option GoString
  | [], _ => some []
  | c :: rest, mode =>
    if c = 37 then  -- '%'
      match rest with
      | h1 :: h2 :: rest2 =>
        if ishex h1 ∧ ishex h2 then
          -- %XX with X1 < 8 is forbidden in hosts unless it is %25
          if mode = .host ∧ unhex h1 < 8 ∧ ¬(h1 = 50 ∧ h2 = 53) then none
          else if mode = .zone ∧ ¬(h1 = 50 ∧ h2 = 53) ∧
              unhex h1 * 16 + unhex h2 ≠ 32 ∧
              shouldEscape (unhex h1 * 16 + unhex h2) .host then none
          else Option.map (fun t => (unhex h1 * 16 + unhex h2) :: t)
            (unescapeGo rest2 mode)
        else none
      | _ => none
    else if c = 43 then  -- '+'
      Option.map (fun t => (if mode = .queryComponent then 32 else 43) :: t)
        (unescapeGo rest mode)
    else if (mode = .host ∨ mode = .zone) ∧ c < 128 ∧ shouldEscape c mode then
      none
    else Option.map (fun t => c :: t) (unescapeGo rest mode)

/-- net/url `QueryEscape`. -/
def queryEscape (s : GoString) : GoString := escape s .queryComponent

/-- net/url `QueryUnescape`. -/
def queryUnescape (s : GoString) : Option GoString := unescapeGo s .queryComponent

example : str "usp" = [117, 115, 112] := rfl
example : queryEscape (str "a b&c") = str "a+b%26c" := rfl
example : queryUnescape (str "a+b%26c") = some (str "a b&c") := rfl
example : escape (str "not a url") .path = str "not%20a%20url" := rfl
example : unescapeGo (str "%zz") .queryComponent = none := rfl

/-! ### Small string utilities mirroring package `strings` -/

/-- Go `strings.Cut(s, sep)` for a one-byte separator: splits at the first
occurrence; the `Bool` is the `found` result. -/
def cut : GoString → Nat → GoString × GoString × Bool
  | [], _ => ([], [], false)
  | c :: rest, sep =>
    if c = sep then ([], rest, true)
    else
      let r := cut rest sep
      (c :: r.1, r.2.1, r.2.2)

/-- Splitting on a separator byte.  `ParseQuery`'s loop of repeated
`strings.Cut(query, "&")` processes exactly these chunks in order. -/
def splitByte (sep : Nat) (s : GoString) : List GoString :=
  List.foldr
    (fun c acc =>
      if c = sep then [] :: acc
      else
        match acc with
        | [] => [[c]]
        | g :: gs => (c :: g) :: gs)
    [[]] s

/-- Go `strings.LastIndexByte`. -/
def lastIndexByte : GoString → Nat → Option Nat
  | [], _ => none
  | c :: rest, b =>
    match lastIndexByte rest b with
    | some i => some (i + 1)
    | none => if c = b then some 0 else none

/-- Go `strings.Index(s, pat)` (first occurrence of a substring). -/
def indexOfSeq (pat : GoString) : GoString → Option Nat
  | [] => if pat = [] then some 0 else none
  | c :: rest =>
    if pat.isPrefixOf (c :: rest) then some 0
    else Option.map (· + 1) (indexOfSeq pat rest)

/-- net/url `stringContainsCTLByte`. -/
def containsCTL (s : GoString) : Bool := s.any fun b => b < 32 || b = 127

/-- ASCII lowercasing; `strings.ToLower` restricted to the ASCII bytes a URL
scheme may contain. -/
def toLowerAscii (s : GoString) : GoString :=
  s.map fun b => if 65 ≤ b ∧ b ≤ 90 then b + 32 else b

/-! ### `url.Values`

Go's `url.Values` is `map[string][]string`.  We embed it as an association
list with (by construction) unique keys; the map's unordered iteration is
irrelevant because `Encode` sorts its keys. -/

/-- Embedding of `url.Values`. -/
abbrev Values := List (GoString × List GoString)

namespace Values

/-- Raw map lookup `v[key]` as an `Option`. -/
def lookup : Values → GoString → Option (List GoString)
  | [], _ => none
  | (k, vs) :: rest, key => if k = key then some vs else lookup rest key

/-- `v[key]`, defaulting to the empty slice like a Go map read. -/
def valuesOf (v : Values) (key : GoString) : List GoString :=
  (lookup v key).getD []

/-- `Values.Get`: first value for the key, or `""`. -/
def get (v : Values) (key : GoString) : GoString :=
  match lookup v key with
  | none => []
  | some [] => []
  | some (x :: _) => x

/-- `Values.Set`: `v[key] = []string{value}`. -/
def set : Values → GoString → GoString → Values
  | [], key, val => [(key, [val])]
  | (k, vs) :: rest, key, val =>
    if k = key then (k, [val]) :: rest else (k, vs) :: set rest key val

/-- `Values.Del`: `delete(v, key)`. -/
def del : Values → GoString → Values
  | [], _ => []
  | (k, vs) :: rest, key =>
    if k = key then del rest key else (k, vs) :: del rest key

/-- `v[key] = append(v[key], value)` as done by `ParseQuery`. -/
def add : Values → GoString → GoString → Values
  | [], key, val => [(key, [val])]
  | (k, vs) :: rest, key, val =>
    if k = key then (k, vs ++ [val]) :: rest else (k, vs) :: add rest key val

end Values

/-! ### Lexicographic byte-string order and `Values.Encode` -/

/-- Go string comparison `a < b` (bytewise lexicographic, a proper prefix is
smaller). -/
def goLess : GoString → GoString → Bool
  | [], [] => false
  | [], _ :: _ => true
  | _ :: _, [] => false
  | a :: as, b :: bs => if a < b then true else if b < a then false else goLess as bs

/-- The ascending order `slices.Sort` establishes on the keys. -/
def keyLe (a b : GoString) : Prop := goLess b a = false

instance : DecidableRel keyLe := fun a b =>
  inferInstanceAs (Decidable (goLess b a = false))

theorem goLess_irrefl : ∀ a : GoString, goLess a a = false := by
  intro a
  induction a with
  | nil => rfl
  | cons c rest ih => simp [goLess, ih]

theorem goLess_asymm : ∀ a b : GoString, goLess a b = true → goLess b a = false := by
  intro a
  induction a with
  | nil =>
    intro b _
    cases b <;> simp [goLess]
  | cons c rest ih =>
    intro b hab
    cases b with
    | nil => simp [goLess] at hab
    | cons d bs =>
      by_cases hcd : c < d
      · simp [goLess, hcd, Nat.not_lt_of_lt hcd, Nat.ne_of_lt hcd, Nat.lt_irrefl]
      · by_cases hdc : d < c
        · simp [goLess, hcd, hdc] at hab
        · have hcd2 : ¬ d < c := hdc
          simp [goLess, hcd, hdc] at hab ⊢
          exact ih bs hab

theorem goLess_trans :
    ∀ a b c : GoString, goLess a b = true → goLess b c = true → goLess a c = true := by
  intro a
  induction a with
  | nil =>
    intro b c hab hbc
    cases b with
    | nil => simp [goLess] at hab
    | cons d bs =>
      cases c with
      | nil => simp [goLess] at hbc
      | cons e cs => simp [goLess]
  | cons x xs ih =>
    intro b c hab hbc
    cases b with
    | nil => simp [goLess] at hab
    | cons y ys =>
      cases c with
      | nil => simp [goLess] at hbc
      | cons z zs =>
        by_cases hxy : x < y
        · by_cases hyz : y < z
          · have hxz : x < z := Nat.lt_trans hxy hyz
            simp [goLess, hxz]
          · by_cases hzy : z < y
            · simp [goLess, hyz, hzy] at hbc
            · have : y = z := Nat.le_antisymm (Nat.le_of_not_lt hzy) (Nat.le_of_not_lt hyz)
              subst this
              simp [goLess, hxy]
        · by_cases hyx : y < x
          · simp [goLess, hxy, hyx] at hab
          · have hx : x = y := Nat.le_antisymm (Nat.le_of_not_lt hyx) (Nat.le_of_not_lt hxy)
            subst hx
            simp [goLess, hxy] at hab
            by_cases hyz : x < z
            · simp [goLess, hyz]
            · by_cases hzy : z < x
              · simp [goLess, hyz, hzy] at hbc
              · simp [goLess, hyz, hzy] at hbc ⊢
                exact ih ys zs hab hbc

theorem keyLe_total : ∀ a b : GoString, keyLe a b ∨ keyLe b a := by
  intro a b
  by_cases h : goLess b a = true
  · exact Or.inr (goLess_asymm b a h)
  · exact Or.inl (Bool.eq_false_iff.mpr (fun hh => h hh))

theorem goLess_trichotomy :
    ∀ a b : GoString, goLess a b = true ∨ a = b ∨ goLess b a = true := by
  intro a
  induction a with
  | nil =>
    intro b
    cases b with
    | nil => exact Or.inr (Or.inl rfl)
    | cons d bs => exact Or.inl (by simp [goLess])
  | cons x xs ih =>
    intro b
    cases b with
    | nil => exact Or.inr (Or.inr (by simp [goLess]))
    | cons y ys =>
      by_cases hxy : x < y
      · exact Or.inl (by simp [goLess, hxy])
      · by_cases hyx : y < x
        · exact Or.inr (Or.inr (by simp [goLess, hyx]))
        · have hx : x = y := Nat.le_antisymm (Nat.le_of_not_lt hyx) (Nat.le_of_not_lt hxy)
          subst hx
          rcases ih ys with h | h | h
          · exact Or.inl (by simp [goLess, h])
          · exact Or.inr (Or.inl (by rw [h]))
          · exact Or.inr (Or.inr (by simp [goLess, h]))

theorem keyLe_trans : ∀ a b c : GoString, keyLe a b → keyLe b c → keyLe a c := by
  intro a b c hab hbc
  unfold keyLe at hab hbc ⊢
  by_cases h : goLess c a = true
  · exfalso
    rcases goLess_trichotomy b c with h1 | h1 | h1
    · have : goLess b a = true := goLess_trans b c a h1 h
      rw [this] at hab
      exact Bool.noConfusion hab
    · subst h1
      rw [h] at hab
      exact Bool.noConfusion hab
    · rw [h1] at hbc
      exact Bool.noConfusion hbc
  · exact Bool.eq_false_iff.mpr (fun hh => h hh)

instance : IsTotal GoString keyLe := ⟨keyLe_total⟩

instance : IsTrans GoString keyLe := ⟨keyLe_trans⟩

/-- Join parts with a separator byte.  This is Go's write-`sep`-when-the-
buffer-is-nonempty loop, on lists whose parts are nonempty (every part
`Encode` emits contains `=`). -/
def joinSep (sep : Nat) : List GoString → GoString
  | [] => []
  | [x] => x
  | x :: y :: rest => x ++ sep :: joinSep sep (y :: rest)

/-- The `key=value` strings `Values.Encode` writes, in emission order: keys
in sorted order, each key's values in slice order, both sides
query-escaped.  (Go collects the map's keys and `slices.Sort`s them; on the
key-unique association lists arising here an insertion sort yields the same
ascending key sequence.) -/
def Values.encodeParts (v : Values) : List GoString :=
  (List.insertionSort keyLe (v.map Prod.fst)).flatMap fun k =>
    (Values.valuesOf v k).map fun val =>
      escape k .queryComponent ++ 61 :: escape val .queryComponent

/-- `Values.Encode`. -/
def Values.encode (v : Values) : GoString :=
  joinSep 38 (Values.encodeParts v)

example :
    Values.encode [(str "usp", [str "pp_url"]), (str "entry.1", [str "a b"])] =
      str "entry.1=a+b&usp=pp_url" := rfl

/-! ### `ParseQuery`

`URL.Query()` calls `ParseQuery` and discards the error, so malformed pairs
(bad percent-encoding, or a chunk containing `;`) are silently skipped. -/

/-- One iteration of `parseQuery`'s loop body on the chunk preceding `&`. -/
def parseChunk (m : Values) (chunk : GoString) : Values :=
  if chunk.contains 59 then m  -- ';' is rejected
  else if chunk = [] then m
  else
    let r := cut chunk 61  -- '='
    match unescapeGo r.1 .queryComponent with
    | none => m
    | some key =>
      match unescapeGo r.2.1 .queryComponent with
      | none => m
      | some value => Values.add m key value

/-- `ParseQuery` with the error discarded, i.e. `URL.Query()` on a raw query. -/
def parseQueryValues (query : GoString) : Values :=
  (splitByte 38 query).foldl parseChunk []

example :
    parseQueryValues (str "usp=sf_link&a=%41&a=2&bad=%zz&x;y=1") =
      [(str "usp", [str "sf_link"]), (str "a", [str "A", str "2"])] := rfl

/-! ### `url.URL` and `url.Parse` -/

/-- net/url `Userinfo`. -/
structure Userinfo where
  username : GoString
  password : GoString
  passwordSet : Bool
deriving DecidableEq, Repr

/-- net/url `URL` (the fields the program exercises). -/
structure URL where
  scheme : GoString := []
  opq : GoString := []  -- Go URL.Opaque
  user : Option Userinfo := none
  host : GoString := []
  path : GoString := []
  rawPath : GoString := []
  omitHost : Bool := false
  forceQuery : Bool := false
  rawQuery : GoString := []
  fragment : GoString := []
  rawFragment : GoString := []
deriving DecidableEq, Repr

/-- Loop of net/url `getScheme`; `orig` is the untouched input, `acc` the
scheme bytes consumed so far, `i` the current index. -/
def getSchemeAux (orig : GoString) : GoString → GoString → Nat → Option (GoString × GoString)
  | [], _, _ => some ([], orig)
  | c :: rest, acc, i =>
    if (97 ≤ c ∧ c ≤ 122) ∨ (65 ≤ c ∧ c ≤ 90) then
      getSchemeAux orig rest (acc ++ [c]) (i + 1)
    else if (48 ≤ c ∧ c ≤ 57) ∨ c = 43 ∨ c = 45 ∨ c = 46 then
      if i = 0 then some ([], orig) else getSchemeAux orig rest (acc ++ [c]) (i + 1)
    else if c = 58 then  -- ':'
      if i = 0 then none else some (acc, rest)
    else some ([], orig)

/-- net/url `getScheme`; `none` is the "missing protocol scheme" error. -/
def getScheme (rawURL : GoString) : Option (GoString × GoString) :=
  getSchemeAux rawURL rawURL [] 0

/-- net/url `validOptionalPort`. -/
def validOptionalPort (port : GoString) : Bool :=
  match port with
  | [] => true
  | c :: rest => c = 58 && rest.all fun b => 48 ≤ b ∧ b ≤ 57

/-- net/url `validUserinfo` (any non-ASCII byte makes the rune check fail). -/
def validUserinfo (s : GoString) : Bool :=
  s.all fun c =>
    if (65 ≤ c ∧ c ≤ 90) ∨ (97 ≤ c ∧ c ≤ 122) ∨ (48 ≤ c ∧ c ≤ 57) then true
    else c = 45 ∨ c = 46 ∨ c = 95 ∨ c = 58 ∨ c = 126 ∨ c = 33 ∨ c = 36 ∨
      c = 38 ∨ c = 39 ∨ c = 40 ∨ c = 41 ∨ c = 42 ∨ c = 43 ∨ c = 44 ∨
      c = 59 ∨ c = 61 ∨ c = 37 ∨ c = 64

/-- net/url `validEncoded`. -/
def validEncoded (s : GoString) (mode : Encoding) : Bool :=
  s.all fun c =>
    if c = 33 ∨ c = 36 ∨ c = 38 ∨ c = 39 ∨ c = 40 ∨ c = 41 ∨ c = 42 ∨
       c = 43 ∨ c = 44 ∨ c = 59 ∨ c = 61 ∨ c = 58 ∨ c = 64 then true
    else if c = 91 ∨ c = 93 then true
    else if c = 37 then true
    else !(shouldEscape c mode)

/-- net/url `parseHost`. -/
def parseHost (host : GoString) : Option GoString :=
  if host.head? = some 91 then  -- '['
    match lastIndexByte host 93 with  -- ']'
    | none => none
    | some i =>
      if !(validOptionalPort (host.drop (i + 1))) then none
      else
        match indexOfSeq (str "%25") (host.take i) with
        | some zone =>
          match unescapeGo (host.take zone) .host,
                unescapeGo ((host.take i).drop zone) .zone,
                unescapeGo (host.drop i) .host with
          | some h1, some h2, some h3 => some (h1 ++ h2 ++ h3)
          | _, _, _ => none
        | none => unescapeGo host .host
  else
    match lastIndexByte host 58 with  -- ':'
    | some i =>
      if !(validOptionalPort (host.drop i)) then none
      else unescapeGo host .host
    | none => unescapeGo host .host

/-- net/url `parseAuthority`. -/
def parseAuthority (authority : GoString) : Option (Option Userinfo × GoString) :=
  match lastIndexByte authority 64 with  -- '@'
  | none =>
    match parseHost authority with
    | none => none
    | some host => some (none, host)
  | some i =>
    match parseHost (authority.drop (i + 1)) with
    | none => none
    | some host =>
      let userinfo := authority.take i
      if !(validUserinfo userinfo) then none
      else if !(userinfo.contains 58) then
        match unescapeGo userinfo .userPassword with
        | none => none
        | some un => some (some ⟨un, [], false⟩, host)
      else
        let r := cut userinfo 58
        match unescapeGo r.1 .userPassword, unescapeGo r.2.1 .userPassword with
        | some un, some pw => some (some ⟨un, pw, true⟩, host)
        | _, _ => none

/-- net/url `URL.setPath`, producing the `path`/`rawPath` pair of fields. -/
def setPathFields (p : GoString) : Option (GoString × GoString) :=
  match unescapeGo p .path with
  | none => none
  | some path => some (path, if escape path .path = p then [] else p)

/-- net/url `parse(rawURL, viaRequest := false)`: everything of `Parse` except
the fragment, which `Parse` splits off first. -/
def parseNoFrag (rawURL : GoString) : Option URL :=
  if containsCTL rawURL then none
  else if rawURL = [42] then some { path := [42] }  -- "*"
  else
    match getScheme rawURL with
    | none => none
    | some (scheme0, rest0) =>
      let scheme := toLowerAscii scheme0
      -- ForceQuery: rest ends in '?' and contains no other '?'
      let endsQ : Bool := rest0.getLast? = some 63 && !(rest0.dropLast.contains 63)
      let rest1 := if endsQ then rest0.dropLast else (cut rest0 63).1
      let rawQuery := if endsQ then [] else (cut rest0 63).2.1
      let forceQuery := endsQ
      if rest1.head? ≠ some 47 ∧ scheme ≠ [] then
        -- rootless path after a scheme is opaque
        some { scheme := scheme, opq := rest1, rawQuery := rawQuery,
               forceQuery := forceQuery }
      else if rest1.head? ≠ some 47 ∧ scheme = [] ∧ (cut rest1 47).1.contains 58 then
        none  -- first path segment in a relative URL cannot contain ':'
      else if (scheme ≠ [] ∨ rest1.take 3 ≠ [47, 47, 47]) ∧ rest1.take 2 = [47, 47] then
        let r := cut (rest1.drop 2) 47  -- split(rest[2:], '/', cutc := false)
        let authority := r.1
        let rest2 := if r.2.2 then 47 :: r.2.1 else []
        match parseAuthority authority with
        | none => none
        | some (user, host) =>
          match setPathFields rest2 with
          | none => none
          | some (path, rawPath) =>
            some { scheme := scheme, user := user, host := host, path := path,
                   rawPath := rawPath, rawQuery := rawQuery,
                   forceQuery := forceQuery }
      else
        match setPathFields rest1 with
        | none => none
        | some (path, rawPath) =>
          some { scheme := scheme, path := path, rawPath := rawPath,
                 omitHost := scheme ≠ [] ∧ rest1.head? = some 47,
                 rawQuery := rawQuery, forceQuery := forceQuery }

/-- net/url `Parse`: split the fragment off at the first `#`, parse the rest,
then `setFragment`. -/
def urlParse (rawURL : GoString) : Option URL :=
  let c := cut rawURL 35  -- '#'
  match parseNoFrag c.1 with
  | none => none
  | some url =>
    if c.2.1 = [] then some url
    else
      match unescapeGo c.2.1 .fragment with
      | none => none
      | some f =>
        some { url with fragment := f,
                        rawFragment := if escape f .fragment = c.2.1 then [] else c.2.1 }

/-- net/url `URL.EscapedPath`. -/
def URL.escapedPath (u : URL) : GoString :=
  if u.rawPath ≠ [] ∧ validEncoded u.rawPath .path ∧
      unescapeGo u.rawPath .path = some u.path then
    u.rawPath
  else if u.path = [42] then [42]
  else escape u.path .path

/-- net/url `URL.EscapedFragment`. -/
def URL.escapedFragment (u : URL) : GoString :=
  if u.rawFragment ≠ [] ∧ validEncoded u.rawFragment .fragment ∧
      unescapeGo u.rawFragment .fragment = some u.fragment then
    u.rawFragment
  else escape u.fragment .fragment

/-- net/url `Userinfo.String`. -/
def Userinfo.string (ui : Userinfo) : GoString :=
  escape ui.username .userPassword ++
    (if ui.passwordSet then 58 :: escape ui.password .userPassword else [])

/-- net/url `URL.String`. -/
def URL.string (u : URL) : GoString :=
  let schemePart := if u.scheme ≠ [] then u.scheme ++ [58] else []
  let mainPart :=
    if u.opq ≠ [] then u.opq
    else
      let authPart :=
        if u.scheme ≠ [] ∨ u.host ≠ [] ∨ u.user.isSome then
          if u.omitHost ∧ u.host = [] ∧ u.user = none then []
          else
            (if u.host ≠ [] ∨ u.path ≠ [] ∨ u.user.isSome then [47, 47] else []) ++
            (match u.user with
             | some ui => Userinfo.string ui ++ [64]
             | none => []) ++
            (if u.host ≠ [] then escape u.host .host else [])
        else []
      let path := u.escapedPath
      let slashPart := if path ≠ [] ∧ path.head? ≠ some 47 ∧ u.host ≠ [] then [47] else []
      let dotSlash := if (cut path 47).1.contains 58 then [46, 47] else []
      authPart ++ slashPart ++ dotSlash ++ path
  let queryPart := if u.forceQuery ∨ u.rawQuery ≠ [] then 63 :: u.rawQuery else []
  let fragPart := if u.fragment ≠ [] then 35 :: u.escapedFragment else []
  schemePart ++ mainPart ++ queryPart ++ fragPart

example :
    urlParse (str "https://docs.google.com/forms/d/e/X/viewform?usp=sf_link") =
      some { scheme := str "https", host := str "docs.google.com",
             path := str "/forms/d/e/X/viewform", rawQuery := str "usp=sf_link" } := rfl

example : urlParse (str "not a url") =
    some { path := str "not a url", rawPath := str "not a url" } := rfl

example : urlParse (str "a\x00b") = none := rfl

example : urlParse (str "http://a b.com/") = none := rfl

example :
    URL.string { scheme := str "https", host := str "h",
                 path := str "/p q", rawQuery := str "usp=pp_url" } =
      str "https://h/p%20q?usp=pp_url" := rfl


/-! ### The program (`main.go`) -/

/-- main.go `Entry` (lines 35-39).  `comment` is carried but never read. -/
structure Entry where
  questionID : GoString
  answer : GoString
  comment : GoString
deriving DecidableEq, Repr

/-- main.go `Config` (lines 29-32). -/
structure Config where
  formURL : GoString
  entries : List Entry
deriving DecidableEq, Repr

/-- The current date, injected in place of `time.Now()`. -/
structure Date where
  year : Nat
  month : Nat
  day : Nat
deriving DecidableEq, Repr

/-- Decimal digits of `n`, zero-padded on the left to width `w`, as Go's
`Format` layout fields `2006`, `01`, `02` render them. -/
def padNat (w n : Nat) : GoString :=
  let ds := (Nat.toDigits 10 n).map Char.toNat
  List.replicate (w - ds.length) 48 ++ ds

/-- `time.Now().Format("2006-01-02")` (main.go line 119). -/
def formatDate (d : Date) : GoString :=
  padNat 4 d.year ++ [45] ++ padNat 2 d.month ++ [45] ++ padNat 2 d.day

example : formatDate ⟨2024, 1, 15⟩ = str "2024-01-15" := rfl

/-- The error outcomes of `buildPrefillURL`:
`urlParseError s` is line 102's wrap of the `url.Parse` failure on `s`,
`validationError i` is line 125's "entries[i].question_id is empty",
`decodeError` is line 155's wrap of a `QueryUnescape` failure. -/
inductive BuildError where
  | urlParseError : GoString → BuildError
  | validationError : Nat → BuildError
  | decodeError : BuildError
deriving DecidableEq, Repr

/-- The entry loop of main.go lines 121-141: validate the question id, apply
the `\x7btoday\x7d` substitution, and `Set` `entry.<questionID>`. -/
def applyEntries : Values → List Entry → Nat → GoString → Except Nat Values
  | q, [], _, _ => .ok q
  | q, e :: rest, i, today =>
    if e.questionID = [] then .error i
    else
      applyEntries
        (Values.set q (str "entry." ++ e.questionID)
          (if e.answer = str "\x7btoday\x7d" then today else e.answer))
        rest (i + 1) today

/-- main.go lines 106-114: read the query, drop `usp=sf_link`, force
`usp=pp_url`. -/
def initQ (u : URL) : Values :=
  let q0 := parseQueryValues u.rawQuery
  let q1 := if Values.get q0 (str "usp") = str "sf_link"
            then Values.del q0 (str "usp") else q0
  Values.set q1 (str "usp") (str "pp_url")

/-- The hand-assembled decoded URL of main.go lines 158-173:
`scheme://` when a scheme is present, then the raw host and path, then the
percent-decoded query (when nonempty) and the raw fragment (when nonempty). -/
def decodedURLOf (u : URL) (decodedQuery : GoString) : GoString :=
  let base0 := (if u.scheme ≠ [] then u.scheme ++ [58, 47, 47] else [])
    ++ u.host ++ u.path
  let base1 := if decodedQuery ≠ [] then base0 ++ 63 :: decodedQuery else base0
  if u.fragment ≠ [] then base1 ++ 35 :: u.fragment else base1

/-- main.go `buildPrefillURL` (lines 97-176).  Returns the `(encoded,
decoded, err)` triple exactly as the Go function does, with `""` standing in
both string slots on every error return.  Go mutates `u.RawQuery` to
`q.Encode()` before calling `u.String()` and then unescapes that same
`u.RawQuery`. -/
def buildPrefillURL (cfg : Config) (now : Date) : GoString × GoString × Option BuildError :=
  match urlParse cfg.formURL with
  | none => ([], [], some (.urlParseError cfg.formURL))
  | some u =>
    match applyEntries (initQ u) cfg.entries 0 (formatDate now) with
    | .error i => ([], [], some (.validationError i))
    | .ok q =>
      match unescapeGo (Values.encode q) .queryComponent with
      | none => ([], [], some .decodeError)
      | some decodedQuery =>
        (URL.string { u with rawQuery := Values.encode q },
         decodedURLOf u decodedQuery, none)

-- Spec section 8, scenario 1.
example :
    buildPrefillURL
      ⟨str "https://docs.google.com/forms/d/e/X/viewform?usp=sf_link",
       [⟨str "1", str "Tokyo", str "memo"⟩]⟩ ⟨2024, 1, 15⟩ =
    (str "https://docs.google.com/forms/d/e/X/viewform?entry.1=Tokyo&usp=pp_url",
     str "https://docs.google.com/forms/d/e/X/viewform?entry.1=Tokyo&usp=pp_url",
     none) := rfl

-- Spec section 8, scenario 2.
example :
    buildPrefillURL
      ⟨str "https://h/f", [⟨str "2", str "\x7btoday\x7d", str ""⟩]⟩ ⟨2024, 1, 15⟩ =
    (str "https://h/f?entry.2=2024-01-15&usp=pp_url",
     str "https://h/f?entry.2=2024-01-15&usp=pp_url",
     none) := rfl

-- Spec section 8, scenario 3.
example :
    buildPrefillURL ⟨str "https://h/f", [⟨str "", str "x", str ""⟩]⟩ ⟨2024, 1, 15⟩ =
    ([], [], some (.validationError 0)) := rfl

/-! ### Lemmas about `Values` operations -/

namespace Values

theorem lookup_set_self (v : Values) (k val : GoString) :
    lookup (set v k val) k = some [val] := by
  induction v with
  | nil => simp [set, lookup]
  | cons p rest ih =>
    obtain ⟨a, vs⟩ := p
    by_cases h : a = k
    · simp [set, h, lookup]
    · simp [set, h, lookup, ih]

theorem lookup_set_ne (v : Values) {k k' : GoString} (val : GoString) (h : k' ≠ k) :
    lookup (set v k val) k' = lookup v k' := by
  have h' : k ≠ k' := fun hh => h hh.symm
  induction v with
  | nil => simp [set, lookup, h']
  | cons p rest ih =>
    obtain ⟨a, vs⟩ := p
    by_cases ha : a = k
    · subst ha
      simp [set, lookup, h']
    · simp [set, ha, lookup, ih]

theorem lookup_del_ne (v : Values) {k k' : GoString} (h : k' ≠ k) :
    lookup (del v k) k' = lookup v k' := by
  have h' : k ≠ k' := fun hh => h hh.symm
  induction v with
  | nil => simp [del]
  | cons p rest ih =>
    obtain ⟨a, vs⟩ := p
    by_cases ha : a = k
    · subst ha
      simp [del, lookup, h', ih]
    · simp [del, ha, lookup, ih]

theorem get_set_self (v : Values) (k val : GoString) : get (set v k val) k = val := by
  simp [get, lookup_set_self]

theorem lookup_some_mem_keys {v : Values} {k : GoString} {vs : List GoString}
    (h : lookup v k = some vs) : k ∈ v.map Prod.fst := by
  induction v with
  | nil => simp [lookup] at h
  | cons p rest ih =>
    obtain ⟨a, avs⟩ := p
    by_cases ha : a = k
    · simp [ha]
    · simp [lookup, ha] at h
      simp [ih h]

end Values

/-! ### Key disjointness facts -/

/-- No `entry.<id>` parameter name collides with `usp`. -/
theorem entryKey_ne_usp (s : GoString) : str "entry." ++ s ≠ str "usp" := by
  intro h
  have e1 : str "entry." ++ s = 101 :: (str "ntry." ++ s) := rfl
  have e2 : str "usp" = 117 :: str "sp" := rfl
  rw [e1, e2] at h
  injection h with h1 _
  exact absurd h1 (by decide)

/-- `entry.<a> = entry.<b>` forces `a = b`. -/
theorem entryKey_inj {a b : GoString} (h : str "entry." ++ a = str "entry." ++ b) :
    a = b :=
  List.append_cancel_left h

/-! ### Lemmas about the entry loop -/

/-- Keys other than the processed `entry.<id>` keys keep their binding. -/
theorem applyEntries_lookup_preserved :
    ∀ (es : List Entry) (q q' : Values) (i : Nat) (today key : GoString),
      applyEntries q es i today = .ok q' →
      (∀ e ∈ es, key ≠ str "entry." ++ e.questionID) →
      Values.lookup q' key = Values.lookup q key := by
  intro es
  induction es with
  | nil =>
    intro q q' i today key h _
    simp [applyEntries] at h
    rw [h]
  | cons e rest ih =>
    intro q q' i today key h hkey
    by_cases hid : e.questionID = []
    · simp [applyEntries, hid] at h
    · simp only [applyEntries, hid, if_neg, ite_false] at h
      have hk : key ≠ str "entry." ++ e.questionID := hkey e (by simp)
      have := ih _ q' (i + 1) today key h (fun e' he' => hkey e' (by simp [he']))
      rw [this, Values.lookup_set_ne _ _ hk]

/-- After a successful loop, `entry.<id>` holds the effective answer of the
last entry with that id. -/
theorem applyEntries_last_value :
    ∀ (pre : List Entry) (e : Entry) (post : List Entry) (q q' : Values)
      (i : Nat) (today : GoString),
      applyEntries q (pre ++ e :: post) i today = .ok q' →
      (∀ e' ∈ post, e'.questionID ≠ e.questionID) →
      Values.lookup q' (str "entry." ++ e.questionID) =
        some [if e.answer = str "\x7btoday\x7d" then today else e.answer] := by
  intro pre
  induction pre with
  | nil =>
    intro e post q q' i today h hpost
    by_cases hid : e.questionID = []
    · simp [applyEntries, hid] at h
    · simp only [List.nil_append, applyEntries, hid, ite_false] at h
      have hpres := applyEntries_lookup_preserved post _ q' (i + 1) today
        (str "entry." ++ e.questionID) h
        (fun e' he' hk => hpost e' he' (entryKey_inj hk).symm)
      rw [hpres, Values.lookup_set_self]
  | cons p pre' ih =>
    intro e post q q' i today h hpost
    by_cases hid : p.questionID = []
    · simp [applyEntries, hid] at h
    · simp only [List.cons_append, applyEntries, hid, ite_false] at h
      exact ih e post _ q' (i + 1) today h hpost

/-- The loop fails at the first empty question id, reporting its 0-based
index. -/
theorem applyEntries_error_at_first_empty :
    ∀ (pre : List Entry) (e : Entry) (post : List Entry) (q : Values)
      (i : Nat) (today : GoString),
      (∀ e' ∈ pre, e'.questionID ≠ []) →
      e.questionID = [] →
      applyEntries q (pre ++ e :: post) i today = .error (i + pre.length) := by
  intro pre
  induction pre with
  | nil =>
    intro e post q i today _ hid
    simp [applyEntries, hid]
  | cons p pre' ih =>
    intro e post q i today hpre hid
    have hp : p.questionID ≠ [] := hpre p (by simp)
    have e1 : (p :: pre') ++ e :: post = p :: (pre' ++ e :: post) := rfl
    rw [e1]
    simp only [applyEntries]
    rw [if_neg hp]
    have hrec := ih e post
      (Values.set q (str "entry." ++ p.questionID)
        (if p.answer = str "\x7btoday\x7d" then today else p.answer))
      (i + 1) today (fun e' he' => hpre e' (by simp [he'])) hid
    rw [hrec, List.length_cons]
    congr 1
    omega

/-! ### Success-shape of the builder -/

/-- On a successful call the three intermediate results exist and determine
both output strings. -/
theorem build_ok_elim {cfg : Config} {now : Date} {enc dec : GoString}
    (h : buildPrefillURL cfg now = (enc, dec, none)) :
    ∃ u q dq, urlParse cfg.formURL = some u ∧
      applyEntries (initQ u) cfg.entries 0 (formatDate now) = .ok q ∧
      unescapeGo (Values.encode q) .queryComponent = some dq ∧
      enc = URL.string { u with rawQuery := Values.encode q } ∧
      dec = decodedURLOf u dq := by
  unfold buildPrefillURL at h
  cases hu : urlParse cfg.formURL with
  | none => simp only [hu] at h; simp at h
  | some u =>
    simp only [hu] at h
    cases ha : applyEntries (initQ u) cfg.entries 0 (formatDate now) with
    | error i => simp only [ha] at h; simp at h
    | ok q =>
      simp only [ha] at h
      cases hd : unescapeGo (Values.encode q) .queryComponent with
      | none => simp only [hd] at h; simp at h
      | some dq =>
        simp only [hd, Prod.mk.injEq] at h
        obtain ⟨h1, h2, -⟩ := h
        exact ⟨u, q, dq, rfl, ha, hd, h1.symm, h2.symm⟩

/-- `usp` is bound to `pp_url` right after the initial query rewrite. -/
theorem initQ_usp (u : URL) :
    Values.lookup (initQ u) (str "usp") = some [str "pp_url"] := by
  simp only [initQ]
  exact Values.lookup_set_self _ _ _

/-- `usp` survives the entry loop untouched. -/
theorem lookup_usp_final {es : List Entry} {q q' : Values} {i : Nat} {today : GoString}
    (h : applyEntries q es i today = .ok q') :
    Values.lookup q' (str "usp") = Values.lookup q (str "usp") :=
  applyEntries_lookup_preserved es q q' i today (str "usp") h
    (fun e _ => (entryKey_ne_usp e.questionID).symm)

/-- The entry loop treats two entry lists with the same (id, answer)
projections identically. -/
theorem applyEntries_congr :
    ∀ (es es2 : List Entry) (q : Values) (i : Nat) (t : GoString),
      es.map (fun e => (e.questionID, e.answer)) =
        es2.map (fun e => (e.questionID, e.answer)) →
      applyEntries q es i t = applyEntries q es2 i t := by
  intro es
  induction es with
  | nil =>
    intro es2 q i t h
    cases es2 with
    | nil => rfl
    | cons e2 rest2 => simp at h
  | cons e rest ih =>
    intro es2 q i t h
    cases es2 with
    | nil => simp at h
    | cons e2 rest2 =>
      simp only [List.map_cons, List.cons.injEq, Prod.mk.injEq] at h
      obtain ⟨⟨h1, h2⟩, h3⟩ := h
      by_cases hid : e.questionID = []
      · simp [applyEntries, hid, h1 ▸ hid]
      · have hid2 : e2.questionID ≠ [] := h1 ▸ hid
        simp only [applyEntries, hid, hid2, ite_false, h1, h2]
        exact ih rest2 _ (i + 1) t h3

/-! ### Claim theorems -/

/-- Claim C1: for every syntactically valid base URL and every entry list
that passes validation (i.e. on every successful call), the final parameter
set carries `usp = pp_url` — whatever `usp` the input query had — and the
encoded URL is the URL serialized with exactly that parameter set as its
query. -/
theorem usp_always_pp_url (cfg : Config) (now : Date) (enc dec : GoString)
    (h : buildPrefillURL cfg now = (enc, dec, none)) :
    ∃ u q, urlParse cfg.formURL = some u ∧
      applyEntries (initQ u) cfg.entries 0 (formatDate now) = .ok q ∧
      Values.get q (str "usp") = str "pp_url" ∧
      enc = URL.string { u with rawQuery := Values.encode q } := by
  obtain ⟨u, q, dq, hu, ha, hd, henc, hdec⟩ := build_ok_elim h
  refine ⟨u, q, hu, ha, ?_, henc⟩
  have hl : Values.lookup q (str "usp") = some [str "pp_url"] := by
    rw [lookup_usp_final ha, initQ_usp]
  simp [Values.get, hl]

def cfgA : Config := ⟨str "https://h/f?usp=old", [⟨str "7", str "x", str "m"⟩]⟩

def dateA : Date := ⟨2024, 1, 15⟩

/-- Witness for C1 at a concrete configuration whose base URL carries a
third `usp` value. -/
theorem usp_always_pp_url_witness :
    ∃ u q, urlParse cfgA.formURL = some u ∧
      applyEntries (initQ u) cfgA.entries 0 (formatDate dateA) = .ok q ∧
      Values.get q (str "usp") = str "pp_url" ∧
      str "https://h/f?entry.7=x&usp=pp_url" =
        URL.string { u with rawQuery := Values.encode q } :=
  usp_always_pp_url cfgA dateA (str "https://h/f?entry.7=x&usp=pp_url")
    (str "https://h/f?entry.7=x&usp=pp_url") (by decide)

/-- Claim C3: when a question id occurs several times, the surviving value of
`entry.<id>` is the effective answer of the last occurrence. -/
theorem duplicate_question_last_write_wins (cfg : Config) (now : Date)
    (enc dec : GoString) (h : buildPrefillURL cfg now = (enc, dec, none))
    (u : URL) (hu : urlParse cfg.formURL = some u)
    (q : Values) (hq : applyEntries (initQ u) cfg.entries 0 (formatDate now) = .ok q)
    (pre : List Entry) (e : Entry) (post : List Entry)
    (hsplit : cfg.entries = pre ++ e :: post)
    (hdup : ∃ e2 ∈ pre, e2.questionID = e.questionID)
    (hlast : ∀ e2 ∈ post, e2.questionID ≠ e.questionID) :
    Values.get q (str "entry." ++ e.questionID) =
      (if e.answer = str "\x7btoday\x7d" then formatDate now else e.answer) := by
  rw [hsplit] at hq
  have hv := applyEntries_last_value pre e post (initQ u) q 0 (formatDate now) hq hlast
  simp [Values.get, hv]

def cfgB : Config :=
  ⟨str "https://h/f", [⟨str "1", str "a", str ""⟩, ⟨str "1", str "b", str ""⟩]⟩

/-- Witness for C3: id `1` appears twice; `entry.1` holds the second answer. -/
theorem duplicate_question_last_write_wins_witness :
    Values.get [(str "usp", [str "pp_url"]), (str "entry.1", [str "b"])]
        (str "entry." ++ str "1") =
      (if str "b" = str "\x7btoday\x7d" then formatDate dateA else str "b") :=
  duplicate_question_last_write_wins cfgB dateA
    (str "https://h/f?entry.1=b&usp=pp_url") (str "https://h/f?entry.1=b&usp=pp_url")
    rfl
    { scheme := str "https", host := str "h", path := str "/f" } rfl
    [(str "usp", [str "pp_url"]), (str "entry.1", [str "b"])] rfl
    [⟨str "1", str "a", str ""⟩] ⟨str "1", str "b", str ""⟩ [] rfl
    ⟨⟨str "1", str "a", str ""⟩, by simp, rfl⟩ (by simp)

/-- Claim C6: an entry with an empty question id makes the whole call fail
with a validation error carrying the (0-based) index of the first offending
entry, and no URL pair is produced. -/
theorem empty_question_id_validation_error (cfg : Config) (now : Date)
    (u : URL) (hu : urlParse cfg.formURL = some u)
    (pre : List Entry) (e : Entry) (post : List Entry)
    (hsplit : cfg.entries = pre ++ e :: post)
    (hpre : ∀ e2 ∈ pre, e2.questionID ≠ [])
    (he : e.questionID = []) :
    buildPrefillURL cfg now = ([], [], some (.validationError pre.length)) := by
  unfold buildPrefillURL
  simp only [hu]
  rw [hsplit,
    applyEntries_error_at_first_empty pre e post (initQ u) 0 (formatDate now) hpre he]
  simp

def cfgC : Config := ⟨str "https://h/f", [⟨str "", str "x", str ""⟩]⟩

/-- Witness for C6: the first entry has an empty id, index 0 is reported. -/
theorem empty_question_id_validation_error_witness :
    buildPrefillURL cfgC dateA = ([], [], some (.validationError 0)) :=
  empty_question_id_validation_error cfgC dateA
    { scheme := str "https", host := str "h", path := str "/f" } (by decide)
    [] ⟨str "", str "x", str ""⟩ [] (by decide) (by simp) (by decide)

/-- Claim C8: the builder is a pure function of the base URL, the
(questionID, answer) projections of the entry list, and the injected date;
in particular two runs on identical inputs give byte-identical outputs, and
the unread `comment` fields cannot influence them. -/
theorem builder_pure_function (cfg cfg2 : Config) (now : Date)
    (hurl : cfg.formURL = cfg2.formURL)
    (hent : cfg.entries.map (fun e => (e.questionID, e.answer)) =
            cfg2.entries.map (fun e => (e.questionID, e.answer))) :
    buildPrefillURL cfg now = buildPrefillURL cfg2 now := by
  unfold buildPrefillURL
  rw [hurl]
  cases hu : urlParse cfg2.formURL with
  | none => simp only [hu]
  | some u =>
    simp only [hu]
    rw [applyEntries_congr cfg.entries cfg2.entries (initQ u) 0 (formatDate now) hent]

def cfgD1 : Config := ⟨str "https://h/f", [⟨str "1", str "x", str "note"⟩]⟩

def cfgD2 : Config := ⟨str "https://h/f", [⟨str "1", str "x", str "other"⟩]⟩

/-- Witness for C8: two configurations differing only in comments produce
identical output. -/
theorem builder_pure_function_witness :
    buildPrefillURL cfgD1 dateA = buildPrefillURL cfgD2 dateA :=
  builder_pure_function cfgD1 cfgD2 dateA rfl rfl

/-- Claim C9: on a successful call, every query parameter of the base URL
other than `usp` and the written `entry.<id>` keys keeps exactly its
original parsed value(s). -/
theorem unrelated_params_preserved (cfg : Config) (now : Date) (enc dec : GoString)
    (h : buildPrefillURL cfg now = (enc, dec, none))
    (u : URL) (hu : urlParse cfg.formURL = some u)
    (q : Values) (hq : applyEntries (initQ u) cfg.entries 0 (formatDate now) = .ok q)
    (k : GoString) (hk : k ≠ str "usp")
    (hke : ∀ e ∈ cfg.entries, k ≠ str "entry." ++ e.questionID) :
    Values.lookup q k = Values.lookup (parseQueryValues u.rawQuery) k := by
  rw [applyEntries_lookup_preserved cfg.entries (initQ u) q 0 (formatDate now) k hq hke]
  simp only [initQ]
  rw [Values.lookup_set_ne _ _ hk]
  by_cases hsf : Values.get (parseQueryValues u.rawQuery) (str "usp") = str "sf_link"
  · rw [if_pos hsf, Values.lookup_del_ne _ hk]
  · rw [if_neg hsf]

def cfgE : Config := ⟨str "https://h/f?a=1&usp=sf_link", [⟨str "1", str "y", str ""⟩]⟩

/-- Witness for C9: parameter `a` of the base URL is untouched. -/
theorem unrelated_params_preserved_witness :
    Values.lookup [(str "a", [str "1"]), (str "usp", [str "pp_url"]),
        (str "entry.1", [str "y"])] (str "a") =
      Values.lookup (parseQueryValues (URL.rawQuery
        { scheme := str "https", host := str "h", path := str "/f",
          rawQuery := str "a=1&usp=sf_link" })) (str "a") :=
  unrelated_params_preserved cfgE dateA
    (str "https://h/f?a=1&entry.1=y&usp=pp_url")
    (str "https://h/f?a=1&entry.1=y&usp=pp_url") (by decide)
    { scheme := str "https", host := str "h", path := str "/f",
      rawQuery := str "a=1&usp=sf_link" } (by decide)
    [(str "a", [str "1"]), (str "usp", [str "pp_url"]), (str "entry.1", [str "y"])]
    rfl
    (str "a") (by decide) (by decide)

/-- Claim C10: on every failing call both output strings are empty — no
partial output: either both URLs are produced or neither is. -/
theorem no_partial_output_on_failure (cfg : Config) (now : Date) (err : BuildError)
    (h : (buildPrefillURL cfg now).2.2 = some err) :
    (buildPrefillURL cfg now).1 = [] ∧ (buildPrefillURL cfg now).2.1 = [] := by
  unfold buildPrefillURL at *
  cases hu : urlParse cfg.formURL with
  | none => simp
  | some u =>
    simp only [hu] at h ⊢
    cases ha : applyEntries (initQ u) cfg.entries 0 (formatDate now) with
    | error i => simp
    | ok q =>
      simp only [ha] at h ⊢
      cases hd : unescapeGo (Values.encode q) .queryComponent with
      | none => simp
      | some dq =>
        simp only [hd] at h
        simp at h

def cfgF : Config := ⟨str "\x01", []⟩

/-- Witness for C10 at a failing call (control byte in the URL). -/
theorem no_partial_output_on_failure_witness :
    (buildPrefillURL cfgF dateA).1 = [] ∧ (buildPrefillURL cfgF dateA).2.1 = [] :=
  no_partial_output_on_failure cfgF dateA (.urlParseError (str "\x01")) (by decide)

/-- Claim C7, counterexample: the base URL `not a url` is NOT rejected by
Go's `url.Parse` — it parses as a schemeless path — so the call succeeds and
produces both URLs, contradicting the claimed `UrlParseError`. -/
theorem not_a_url_parses_successfully :
    buildPrefillURL ⟨str "not a url", []⟩ ⟨2024, 3, 9⟩ =
      (str "not%20a%20url?usp=pp_url", str "not a url?usp=pp_url", none) ∧
    (urlParse (str "not a url")).isSome = true := ⟨rfl, rfl⟩

/-- Claim C7 as amended: every base URL the parser rejects (for example one
containing an ASCII control byte) makes the call fail with a `UrlParseError`
carrying the offending string, and no URL is produced; but `not a url` is
accepted by the parser, so it does not trigger this failure. -/
theorem unparseable_url_error :
    (∀ (cfg : Config) (now : Date), urlParse cfg.formURL = none →
      buildPrefillURL cfg now = ([], [], some (.urlParseError cfg.formURL))) ∧
    (urlParse (str "not a url")).isSome = true := by
  constructor
  · intro cfg now h
    unfold buildPrefillURL
    simp only [h]
  · rfl

/-- Witness for amended C7 at a base URL containing a NUL byte. -/
theorem unparseable_url_error_witness :
    buildPrefillURL ⟨str "ht\x00tp://x", []⟩ ⟨2024, 1, 15⟩ =
      ([], [], some (.urlParseError (str "ht\x00tp://x"))) :=
  unparseable_url_error.1 ⟨str "ht\x00tp://x", []⟩ ⟨2024, 1, 15⟩ (by decide)

/-- Claim C4: on every successful call the encoded query is the
serialization of the final parameter set with its keys emitted in sorted
order (`List.Sorted keyLe` of the very key sequence `Values.encode`
iterates), and repeated runs on the same input are byte-identical. -/
theorem encoded_query_sorted_deterministic (cfg : Config) (now : Date)
    (enc dec : GoString) (h : buildPrefillURL cfg now = (enc, dec, none)) :
    ∃ u q, urlParse cfg.formURL = some u ∧
      applyEntries (initQ u) cfg.entries 0 (formatDate now) = .ok q ∧
      enc = URL.string { u with rawQuery := Values.encode q } ∧
      List.Sorted keyLe (List.insertionSort keyLe (q.map Prod.fst)) ∧
      buildPrefillURL cfg now = buildPrefillURL cfg now := by
  obtain ⟨u, q, dq, hu, ha, hd, henc, -⟩ := build_ok_elim h
  exact ⟨u, q, hu, ha, henc, List.sorted_insertionSort keyLe _, rfl⟩

def cfgG : Config := ⟨str "https://h/f?b=2&a=1", [⟨str "10", str "v", str ""⟩]⟩

/-- Witness for C4: keys `a`, `b`, `entry.10`, `usp` come out sorted. -/
theorem encoded_query_sorted_deterministic_witness :
    ∃ u q, urlParse cfgG.formURL = some u ∧
      applyEntries (initQ u) cfgG.entries 0 (formatDate dateA) = .ok q ∧
      str "https://h/f?a=1&b=2&entry.10=v&usp=pp_url" =
        URL.string { u with rawQuery := Values.encode q } ∧
      List.Sorted keyLe (List.insertionSort keyLe (q.map Prod.fst)) ∧
      buildPrefillURL cfgG dateA = buildPrefillURL cfgG dateA :=
  encoded_query_sorted_deterministic cfgG dateA
    (str "https://h/f?a=1&b=2&entry.10=v&usp=pp_url")
    (str "https://h/f?a=1&b=2&entry.10=v&usp=pp_url") rfl

/-! ### Escape / unescape round-trip machinery -/

theorem ishex_hexUpper : ∀ n, n < 16 → ishex (hexUpper n) = true := by decide

theorem unhex_hexUpper : ∀ n, n < 16 → unhex (hexUpper n) = n := by decide

/-- A byte that is neither `%` nor `+` passes through query unescaping. -/
theorem unescape_cons_plain {c : Nat} (h37 : c ≠ 37) (h43 : c ≠ 43) (z : GoString) :
    unescapeGo (c :: z) .queryComponent =
      Option.map (fun t => c :: t) (unescapeGo z .queryComponent) := by
  match z with
  | [] => simp [unescapeGo, h37, h43]
  | [a] => simp [unescapeGo, h37, h43]
  | a :: b :: rest => simp [unescapeGo, h37, h43]

/-- `+` decodes to a space in query components. -/
theorem unescape_cons_plus (z : GoString) :
    unescapeGo (43 :: z) .queryComponent =
      Option.map (fun t => 32 :: t) (unescapeGo z .queryComponent) := by
  match z with
  | [] => simp [unescapeGo]
  | [a] => simp [unescapeGo]
  | a :: b :: rest => simp [unescapeGo]

/-- A well-formed `%XX` triple decodes to its byte in query components. -/
theorem unescape_cons_percent (h1 h2 : Nat) (z : GoString)
    (hx1 : ishex h1 = true) (hx2 : ishex h2 = true) :
    unescapeGo (37 :: h1 :: h2 :: z) .queryComponent =
      Option.map (fun t => (unhex h1 * 16 + unhex h2) :: t)
        (unescapeGo z .queryComponent) := by
  simp [unescapeGo, hx1, hx2]

/-- Unescaping a query-escaped byte string prepended to anything decodes the
string back and continues. -/
theorem unescape_escape_append (s t : GoString) (hs : ByteStr s) :
    unescapeGo (escape s .queryComponent ++ t) .queryComponent =
      Option.map (s ++ ·) (unescapeGo t .queryComponent) := by
  induction s with
  | nil =>
    simp only [escape, List.nil_append]
    cases unescapeGo t .queryComponent <;> simp
  | cons c s2 ih =>
    have hc : c < 256 := hs c (by simp)
    have hs2 : ByteStr s2 := fun b hb => hs b (by simp [hb])
    have ih2 := ih hs2
    by_cases h32 : c = 32
    · subst h32
      have he : escapeByte .queryComponent 32 = [43] := by simp [escapeByte]
      simp only [escape, he, List.cons_append, List.nil_append]
      rw [unescape_cons_plus, ih2]
      cases unescapeGo t .queryComponent <;> simp
    · by_cases hesc : shouldEscape c .queryComponent = true
      · have he : escapeByte .queryComponent c =
            [37, hexUpper (c / 16), hexUpper (c % 16)] := by
          simp [escapeByte, h32, hesc]
        have hd16 : c / 16 < 16 := by omega
        have hm16 : c % 16 < 16 := by omega
        simp only [escape, he, List.cons_append, List.nil_append]
        rw [unescape_cons_percent _ _ _ (ishex_hexUpper _ hd16) (ishex_hexUpper _ hm16)]
        simp only [unhex_hexUpper _ hd16, unhex_hexUpper _ hm16,
          show c / 16 * 16 + c % 16 = c from by omega]
        rw [ih2]
        cases unescapeGo t .queryComponent <;> simp
      · have he : escapeByte .queryComponent c = [c] := by simp [escapeByte, h32, hesc]
        have h37 : c ≠ 37 := by
          intro hh
          rw [hh] at hesc
          exact hesc (by decide)
        have h43 : c ≠ 43 := by
          intro hh
          rw [hh] at hesc
          exact hesc (by decide)
        simp only [escape, he, List.cons_append, List.nil_append]
        rw [unescape_cons_plain h37 h43, ih2]
        cases unescapeGo t .queryComponent <;> simp

/-- A cons image under `Option.map` is never the empty list. -/
theorem map_cons_ne_nil {x : Nat} {o : Option GoString} {t : GoString}
    (h : Option.map (fun w => x :: w) o = some t) : t ≠ [] := by
  cases o with
  | none => simp at h
  | some w =>
    simp at h
    rw [← h]
    simp

/-- Unescaping a nonempty string, when it succeeds, yields a nonempty
string. -/
theorem unescape_ne_nil :
    ∀ (s : GoString) (mode : Encoding) (t : GoString),
      s ≠ [] → unescapeGo s mode = some t → t ≠ [] := by
  intro s mode t hs h
  match s, hs with
  | c :: z, _ =>
    match z with
    | [] =>
      simp only [unescapeGo] at h
      split at h
      · exact absurd h (by simp)
      · split at h
        · exact map_cons_ne_nil h
        · split at h
          · exact absurd h (by simp)
          · exact map_cons_ne_nil h
    | [a] =>
      simp only [unescapeGo] at h
      split at h
      · exact absurd h (by simp)
      · split at h
        · exact map_cons_ne_nil h
        · split at h
          · exact absurd h (by simp)
          · exact map_cons_ne_nil h
    | a :: b :: rest =>
      simp only [unescapeGo] at h
      split at h
      · split at h
        · split at h
          · exact absurd h (by simp)
          · split at h
            · exact absurd h (by simp)
            · exact map_cons_ne_nil h
        · exact absurd h (by simp)
      · split at h
        · exact map_cons_ne_nil h
        · split at h
          · exact absurd h (by simp)
          · exact map_cons_ne_nil h

/-! ### The pair structure of `Values.Encode` output -/

/-- One emitted `key=value` chunk, escaped. -/
def escPair (p : GoString × GoString) : GoString :=
  escape p.1 .queryComponent ++ 61 :: escape p.2 .queryComponent

/-- The same chunk with both sides raw. -/
def rawPair (p : GoString × GoString) : GoString := p.1 ++ 61 :: p.2

/-- The (key, value) pairs `Values.Encode` emits, in emission order. -/
def kvList (v : Values) : List (GoString × GoString) :=
  (List.insertionSort keyLe (v.map Prod.fst)).flatMap fun k =>
    (Values.valuesOf v k).map fun val => (k, val)

theorem encodeParts_eq_map (v : Values) :
    Values.encodeParts v = (kvList v).map escPair := by
  unfold Values.encodeParts kvList
  rw [List.map_flatMap]
  congr 1
  funext k
  rw [List.map_map]
  rfl

/-- Membership of a looked-up binding in the emitted pair list. -/
theorem mem_kvList {v : Values} {k val : GoString}
    (h : Values.lookup v k = some [val]) : (k, val) ∈ kvList v := by
  unfold kvList
  refine List.mem_flatMap.mpr ⟨k, ?_, ?_⟩
  · exact (List.perm_insertionSort keyLe (v.map Prod.fst)).mem_iff.mpr
      (Values.lookup_some_mem_keys h)
  · simp [Values.valuesOf, h]

/-- A successful lookup locates an actual element of the association list. -/
theorem lookup_mem {v : Values} {k : GoString} {vs : List GoString}
    (h : Values.lookup v k = some vs) : (k, vs) ∈ v := by
  induction v with
  | nil => simp [Values.lookup] at h
  | cons p rest ih =>
    obtain ⟨a, avs⟩ := p
    by_cases ha : a = k
    · subst ha
      simp [Values.lookup] at h
      subst h
      simp
    · simp only [Values.lookup, if_neg ha] at h
      simp [ih h]

/-- Byte-validity transfers from a `Values` to its emitted pair list. -/
theorem kvList_bytes {v : Values}
    (hv : ∀ p ∈ v, ByteStr p.1 ∧ ∀ w ∈ p.2, ByteStr w) :
    ∀ p ∈ kvList v, ByteStr p.1 ∧ ByteStr p.2 := by
  intro p hp
  unfold kvList at hp
  obtain ⟨k, hk, hpk⟩ := List.mem_flatMap.mp hp
  obtain ⟨val, hval, hvp⟩ := List.mem_map.mp hpk
  cases hl : Values.lookup v k with
  | none => simp [Values.valuesOf, hl] at hval
  | some vs =>
    have hmem : (k, vs) ∈ v := lookup_mem hl
    have hv2 := hv _ hmem
    rw [← hvp]
    refine ⟨hv2.1, hv2.2 val ?_⟩
    simpa [Values.valuesOf, hl] using hval

/-! ### `joinSep` lemmas -/

theorem infix_joinSep_of_mem {a : GoString} {l : List GoString} (sep : Nat)
    (h : a ∈ l) : a <:+: joinSep sep l := by
  induction l with
  | nil => cases h
  | cons x rest ih =>
    cases rest with
    | nil =>
      have : a = x := by simpa using h
      subst this
      exact ⟨[], [], by simp [joinSep]⟩
    | cons y rest2 =>
      rcases List.mem_cons.mp h with hax | hmem
      · subst hax
        exact ⟨[], sep :: joinSep sep (y :: rest2), by simp [joinSep]⟩
      · have htail := ih hmem
        have hstep : joinSep sep (y :: rest2) <:+: joinSep sep (x :: y :: rest2) :=
          ⟨x ++ [sep], [], by simp [joinSep]⟩
        exact htail.trans hstep

theorem joinSep_ne_nil {a : GoString} {l : List GoString} (sep : Nat)
    (h : a ∈ l) (ha : a ≠ []) : joinSep sep l ≠ [] := by
  cases l with
  | nil => cases h
  | cons x rest =>
    cases rest with
    | nil =>
      have : a = x := by simpa using h
      subst this
      simpa [joinSep] using ha
    | cons y rest2 => simp [joinSep]

/-- Query-unescaping an `&`-joined list of escaped `key=value` chunks
unescapes every chunk. -/
theorem unescape_joinSep_pairs :
    ∀ (kvs : List (GoString × GoString)),
      (∀ p ∈ kvs, ByteStr p.1 ∧ ByteStr p.2) →
      unescapeGo (joinSep 38 (kvs.map escPair)) .queryComponent =
        some (joinSep 38 (kvs.map rawPair)) := by
  intro kvs
  induction kvs with
  | nil =>
    intro _
    simp [joinSep, unescapeGo]
  | cons p rest ih =>
    intro hb
    obtain ⟨hb1, hb2⟩ := hb p (by simp)
    cases rest with
    | nil =>
      simp only [List.map_cons, List.map_nil, joinSep]
      rw [show escPair p = escape p.1 .queryComponent ++
            (61 :: (escape p.2 .queryComponent ++ [])) from by simp [escPair]]
      rw [unescape_escape_append _ _ hb1, unescape_cons_plain (by decide) (by decide),
        unescape_escape_append _ _ hb2]
      simp [unescapeGo, rawPair]
    | cons p2 rest2 =>
      have ih2 := ih (fun p3 hp3 => hb p3 (by simp [hp3]))
      simp only [List.map_cons] at ih2 ⊢
      simp only [joinSep] at ih2 ⊢
      rw [show escPair p ++ 38 :: joinSep 38 (escPair p2 :: List.map escPair rest2) =
            escape p.1 .queryComponent ++ (61 :: (escape p.2 .queryComponent ++
              (38 :: joinSep 38 (escPair p2 :: List.map escPair rest2)))) from by
          simp [escPair]]
      rw [unescape_escape_append _ _ hb1, unescape_cons_plain (by decide) (by decide),
        unescape_escape_append _ _ hb2, unescape_cons_plain (by decide) (by decide),
        ih2]
      simp [rawPair]

/-! ### Infix positioning of the query inside both output strings -/

theorem infix_append_left_of {l1 l2 : GoString} (A : GoString) (h : l1 <:+: l2) :
    l1 <:+: A ++ l2 := by
  obtain ⟨s, t, rfl⟩ := h
  exact ⟨A ++ s, t, by simp⟩

theorem infix_append_right_of {l1 l2 : GoString} (B : GoString) (h : l1 <:+: l2) :
    l1 <:+: l2 ++ B := by
  obtain ⟨s, t, rfl⟩ := h
  exact ⟨s, t ++ B, by simp⟩

/-- A nonempty raw query appears verbatim, after a `?`, inside `URL.String`'s
output. -/
theorem rawQuery_infix_string (u : URL) (h : u.rawQuery ≠ []) :
    u.rawQuery <:+: URL.string u := by
  simp only [URL.string]
  rw [if_pos (Or.inr h)]
  exact infix_append_right_of _ (infix_append_left_of _ ⟨[63], [], by simp⟩)

/-- A nonempty decoded query appears verbatim, after a `?`, inside the
hand-assembled decoded URL. -/
theorem infix_decoded (u : URL) (dq : GoString) (h : dq ≠ []) :
    dq <:+: decodedURLOf u dq := by
  simp only [decodedURLOf]
  rw [if_pos h]
  by_cases hf : u.fragment ≠ []
  · rw [if_pos hf]
    exact infix_append_right_of _ (infix_append_left_of _ ⟨[63], [], by simp⟩)
  · rw [if_neg hf]
    exact infix_append_left_of _ ⟨[63], [], by simp⟩

/-- A parameter set with a bound key serializes to a nonempty query. -/
theorem encode_ne_nil {v : Values} {k val : GoString}
    (h : Values.lookup v k = some [val]) : Values.encode v ≠ [] := by
  have hm : escPair (k, val) ∈ Values.encodeParts v := by
    rw [encodeParts_eq_map]
    exact List.mem_map_of_mem _ (mem_kvList h)
  exact joinSep_ne_nil 38 hm (by simp [escPair])

/-- Claim C2: an answer equal to the literal token (and only that token) is
replaced by the formatted injected date; any other answer is used verbatim.
The effective answer of the last entry for the id is the final value of
`entry.<id>`, and the corresponding `key=value` chunk appears in the encoded
URL (escaped) and in the decoded URL (raw). -/
theorem today_token_substitution (cfg : Config) (now : Date) (enc dec : GoString)
    (h : buildPrefillURL cfg now = (enc, dec, none))
    (u : URL) (hu : urlParse cfg.formURL = some u)
    (q : Values) (hq : applyEntries (initQ u) cfg.entries 0 (formatDate now) = .ok q)
    (hbytes : ∀ p ∈ q, ByteStr p.1 ∧ ∀ w ∈ p.2, ByteStr w)
    (pre : List Entry) (e : Entry) (post : List Entry)
    (hsplit : cfg.entries = pre ++ e :: post)
    (hlast : ∀ e2 ∈ post, e2.questionID ≠ e.questionID) :
    Values.get q (str "entry." ++ e.questionID) =
      (if e.answer = str "\x7btoday\x7d" then formatDate now else e.answer) ∧
    (escape (str "entry." ++ e.questionID) .queryComponent ++ 61 ::
      escape (if e.answer = str "\x7btoday\x7d" then formatDate now else e.answer)
        .queryComponent) <:+: enc ∧
    ((str "entry." ++ e.questionID) ++ 61 ::
      (if e.answer = str "\x7btoday\x7d" then formatDate now else e.answer)) <:+: dec := by
  obtain ⟨u2, q2, dq, hu2, ha2, hd, henc, hdec⟩ := build_ok_elim h
  rw [hu] at hu2
  injection hu2 with hb
  subst hb
  rw [hq] at ha2
  injection ha2 with hb2
  subst hb2
  have hv : Values.lookup q (str "entry." ++ e.questionID) =
      some [if e.answer = str "\x7btoday\x7d" then formatDate now else e.answer] := by
    rw [hsplit] at hq
    exact applyEntries_last_value pre e post (initQ u) q 0 (formatDate now) hq hlast
  refine ⟨by simp [Values.get, hv], ?_, ?_⟩
  · have hmem : escPair (str "entry." ++ e.questionID,
        if e.answer = str "\x7btoday\x7d" then formatDate now else e.answer) ∈
        Values.encodeParts q := by
      rw [encodeParts_eq_map]
      exact List.mem_map_of_mem _ (mem_kvList hv)
    have hinfix1 := infix_joinSep_of_mem 38 hmem
    have hne : Values.encode q ≠ [] := encode_ne_nil hv
    have hinfix2 := rawQuery_infix_string { u with rawQuery := Values.encode q } hne
    rw [henc]
    exact hinfix1.trans hinfix2
  · have hmemkv := mem_kvList hv
    have hdq : dq = joinSep 38 ((kvList q).map rawPair) := by
      have hj := unescape_joinSep_pairs (kvList q) (kvList_bytes hbytes)
      rw [show joinSep 38 ((kvList q).map escPair) =
            joinSep 38 (Values.encodeParts q) from by rw [encodeParts_eq_map]] at hj
      rw [show unescapeGo (joinSep 38 (Values.encodeParts q)) .queryComponent =
            unescapeGo (Values.encode q) .queryComponent from rfl, hd] at hj
      injection hj
    have hraw : rawPair (str "entry." ++ e.questionID,
        if e.answer = str "\x7btoday\x7d" then formatDate now else e.answer) ∈
        (kvList q).map rawPair := List.mem_map_of_mem _ hmemkv
    have hinfix1 : rawPair (str "entry." ++ e.questionID,
        if e.answer = str "\x7btoday\x7d" then formatDate now else e.answer) <:+: dq := by
      rw [hdq]
      exact infix_joinSep_of_mem 38 hraw
    have hdqne : dq ≠ [] := by
      rw [hdq]
      exact joinSep_ne_nil 38 hraw (by simp [rawPair])
    rw [hdec]
    exact hinfix1.trans (infix_decoded u dq hdqne)

def cfgH : Config := ⟨str "https://h/f", [⟨str "2", str "\x7btoday\x7d", str ""⟩]⟩

/-- Witness for C2: answer `\x7btoday\x7d` becomes `2024-01-15` in the final
parameter set and in both output URLs. -/
theorem today_token_substitution_witness :
    Values.get [(str "usp", [str "pp_url"]), (str "entry.2", [str "2024-01-15"])]
        (str "entry." ++ str "2") =
      (if str "\x7btoday\x7d" = str "\x7btoday\x7d" then formatDate dateA
       else str "\x7btoday\x7d") ∧
    (escape (str "entry." ++ str "2") .queryComponent ++ 61 ::
      escape (if str "\x7btoday\x7d" = str "\x7btoday\x7d" then formatDate dateA
        else str "\x7btoday\x7d") .queryComponent) <:+:
      str "https://h/f?entry.2=2024-01-15&usp=pp_url" ∧
    ((str "entry." ++ str "2") ++ 61 ::
      (if str "\x7btoday\x7d" = str "\x7btoday\x7d" then formatDate dateA
       else str "\x7btoday\x7d")) <:+:
      str "https://h/f?entry.2=2024-01-15&usp=pp_url" :=
  today_token_substitution cfgH dateA
    (str "https://h/f?entry.2=2024-01-15&usp=pp_url")
    (str "https://h/f?entry.2=2024-01-15&usp=pp_url") rfl
    { scheme := str "https", host := str "h", path := str "/f" } rfl
    [(str "usp", [str "pp_url"]), (str "entry.2", [str "2024-01-15"])] rfl
    (by decide)
    [] ⟨str "2", str "\x7btoday\x7d", str ""⟩ [] rfl (by simp)

/-! ### `URL.String` on a standard authority-form URL -/

/-- On a non-opaque URL with a scheme, a host, no user info, and host, path
and fragment that the serializer renders verbatim, `URL.String` is exactly
`scheme://host path ?query #fragment`. -/
theorem string_standard (u2 : URL)
    (hopq : u2.opq = []) (huser : u2.user = none)
    (hscheme : u2.scheme ≠ []) (hhost : u2.host ≠ [])
    (hhostesc : escape u2.host .host = u2.host)
    (hpath : URL.escapedPath u2 = u2.path)
    (hslash : u2.path = [] ∨ u2.path.head? = some 47)
    (hfrag : URL.escapedFragment u2 = u2.fragment)
    (hq : u2.rawQuery ≠ []) :
    URL.string u2 = u2.scheme ++ 58 :: 47 :: 47 :: (u2.host ++ u2.path ++
      63 :: u2.rawQuery ++ (if u2.fragment ≠ [] then 35 :: u2.fragment else [])) := by
  rcases hslash with hpath0 | hpath47
  · simp [URL.string, hopq, huser, hscheme, hhost, hhostesc, hpath, hfrag, hq,
      hpath0, cut, List.append_assoc]
  · obtain ⟨ptail, hpt⟩ : ∃ t, u2.path = 47 :: t := by
      cases hp : u2.path with
      | nil => rw [hp] at hpath47; simp at hpath47
      | cons a t =>
        rw [hp] at hpath47
        simp at hpath47
        exact ⟨t, by rw [hpath47]⟩
    simp [URL.string, hopq, huser, hscheme, hhost, hhostesc, hpath, hfrag, hq,
      hpt, cut, List.append_assoc]

/-- The decoded assembly on a URL with a scheme and a nonempty decoded
query. -/
theorem decodedURLOf_standard (u : URL) (dq : GoString)
    (hscheme : u.scheme ≠ []) (hdq : dq ≠ []) :
    decodedURLOf u dq = u.scheme ++ 58 :: 47 :: 47 :: (u.host ++ u.path ++
      63 :: dq ++ (if u.fragment ≠ [] then 35 :: u.fragment else [])) := by
  by_cases hf : u.fragment = [] <;>
    simp [decodedURLOf, hscheme, hdq, hf, List.append_assoc]

/-- Claim C5, counterexample: for the base URL `not a url` the call succeeds
but the non-query part of the encoded URL (`not%20a%20url`, the escaped
path) differs from that of the decoded URL (`not a url`, the raw path). -/
theorem encoded_decoded_parts_differ_example :
    buildPrefillURL ⟨str "not a url", []⟩ ⟨2024, 3, 9⟩ =
      (str "not%20a%20url?usp=pp_url", str "not a url?usp=pp_url", none) ∧
    (cut (str "not%20a%20url?usp=pp_url") 63).1 ≠
      (cut (str "not a url?usp=pp_url") 63).1 := ⟨rfl, by decide⟩

/-- The `?query` tail of a nonempty raw query appears verbatim inside
`URL.String`'s output. -/
theorem query_part_infix_string (u : URL) (h : u.rawQuery ≠ []) :
    63 :: u.rawQuery <:+: URL.string u := by
  simp only [URL.string]
  rw [if_pos (Or.inr h)]
  exact infix_append_right_of _ (infix_append_left_of _ ⟨[], [], by simp⟩)

/-- The `?query` tail of a nonempty decoded query appears verbatim inside the
hand-assembled decoded URL. -/
theorem query_part_infix_decoded (u : URL) (dq : GoString) (h : dq ≠ []) :
    63 :: dq <:+: decodedURLOf u dq := by
  simp only [decodedURLOf]
  rw [if_pos h]
  by_cases hf : u.fragment ≠ []
  · rw [if_pos hf]
    exact infix_append_right_of _ (infix_append_left_of _ ⟨[], [], by simp⟩)
  · rw [if_neg hf]
    exact infix_append_left_of _ ⟨[], [], by simp⟩

/-- Claim C5 as amended: on EVERY successful call, percent-decoding the
query portion of the encoded URL (which is `Values.encode q`, placed after
`?` in `enc`) succeeds and yields exactly the query portion of the decoded
URL (`dq`, placed after `?` in `dec`).  The non-query parts (scheme, host,
path, fragment) are additionally identical between the two outputs whenever
the base URL parses to a non-opaque URL with a scheme, a host, no user
info, and host, path and fragment needing no escaping (path empty or
rooted).  Without those conditions — e.g. a path containing a space — the
non-query parts can differ, as the counterexample shows. -/
theorem query_roundtrip_and_parts (cfg : Config) (now : Date) (enc dec : GoString)
    (h : buildPrefillURL cfg now = (enc, dec, none))
    (u : URL) (hu : urlParse cfg.formURL = some u)
    (q : Values) (hq : applyEntries (initQ u) cfg.entries 0 (formatDate now) = .ok q) :
    ∃ dq, unescapeGo (Values.encode q) .queryComponent = some dq ∧
      enc = URL.string { u with rawQuery := Values.encode q } ∧
      63 :: Values.encode q <:+: enc ∧
      dec = decodedURLOf u dq ∧
      63 :: dq <:+: dec ∧
      (u.opq = [] → u.user = none → u.scheme ≠ [] → u.host ≠ [] →
        escape u.host .host = u.host → URL.escapedPath u = u.path →
        (u.path = [] ∨ u.path.head? = some 47) →
        URL.escapedFragment u = u.fragment →
        enc = u.scheme ++ 58 :: 47 :: 47 :: (u.host ++ u.path ++
          63 :: Values.encode q ++
          (if u.fragment ≠ [] then 35 :: u.fragment else [])) ∧
        dec = u.scheme ++ 58 :: 47 :: 47 :: (u.host ++ u.path ++
          63 :: dq ++ (if u.fragment ≠ [] then 35 :: u.fragment else []))) := by
  obtain ⟨u2, q2, dq, hu2, ha2, hd, henc, hdec⟩ := build_ok_elim h
  rw [hu] at hu2
  injection hu2 with hb
  subst hb
  rw [hq] at ha2
  injection ha2 with hb2
  subst hb2
  have husp : Values.lookup q (str "usp") = some [str "pp_url"] := by
    rw [lookup_usp_final hq, initQ_usp]
  have hne : Values.encode q ≠ [] := encode_ne_nil husp
  have hdqne : dq ≠ [] := unescape_ne_nil (Values.encode q) .queryComponent dq hne hd
  refine ⟨dq, hd, henc, ?_, hdec, ?_, ?_⟩
  · rw [henc]
    exact query_part_infix_string { u with rawQuery := Values.encode q } hne
  · rw [hdec]
    exact query_part_infix_decoded u dq hdqne
  · intro hopq huser hscheme hhost hhostesc hpath hslash hfrag
    constructor
    · rw [henc]
      exact string_standard { u with rawQuery := Values.encode q }
        hopq huser hscheme hhost hhostesc hpath hslash hfrag hne
    · rw [hdec]
      exact decodedURLOf_standard u dq hscheme hdqne

def urlI : URL :=
  { scheme := str "a", host := str "b", path := str "/c", rawQuery := str "usp=x" }

/-- Witness for amended C5 at a standard authority-form URL. -/
theorem query_roundtrip_and_parts_witness :
    ∃ dq, unescapeGo (Values.encode [(str "usp", [str "pp_url"])])
        .queryComponent = some dq ∧
      str "a://b/c?usp=pp_url" =
        URL.string { urlI with
          rawQuery := Values.encode [(str "usp", [str "pp_url"])] } ∧
      63 :: Values.encode [(str "usp", [str "pp_url"])] <:+:
        str "a://b/c?usp=pp_url" ∧
      str "a://b/c?usp=pp_url" = decodedURLOf urlI dq ∧
      63 :: dq <:+: str "a://b/c?usp=pp_url" ∧
      (urlI.opq = [] → urlI.user = none → urlI.scheme ≠ [] → urlI.host ≠ [] →
        escape urlI.host .host = urlI.host → URL.escapedPath urlI = urlI.path →
        (urlI.path = [] ∨ urlI.path.head? = some 47) →
        URL.escapedFragment urlI = urlI.fragment →
        str "a://b/c?usp=pp_url" = urlI.scheme ++ 58 :: 47 :: 47 ::
          (urlI.host ++ urlI.path ++
            63 :: Values.encode [(str "usp", [str "pp_url"])] ++
            (if urlI.fragment ≠ [] then 35 :: urlI.fragment else [])) ∧
        str "a://b/c?usp=pp_url" = urlI.scheme ++ 58 :: 47 :: 47 ::
          (urlI.host ++ urlI.path ++
            63 :: dq ++ (if urlI.fragment ≠ [] then 35 :: urlI.fragment else []))) :=
  query_roundtrip_and_parts ⟨str "a://b/c?usp=x", []⟩ dateA
    (str "a://b/c?usp=pp_url") (str "a://b/c?usp=pp_url") rfl
    urlI rfl
    [(str "usp", [str "pp_url"])] rfl
